import Mathlib

/-!
Verification of the pluggable key-value coordination store abstraction
(libnetwork/internal/kvstore).  The Go source under consideration declares
the `Store` interface, the `KVPair` value object, the error taxonomy and the
`Backend` identifier type; the reference backend and the registry are
specified by the natural-language specification and are modelled from it
below.
-/

namespace KVStore

/-- The error taxonomy of the store contract, from the error values
declared in kvstore.go (ErrBackendNotSupported, ErrKeyModified,
ErrKeyNotFound, ErrPreviousNotSpecified, ErrKeyExists). -/
inductive KVError where
  | backendNotSupported
  | keyModified
  | keyNotFound
  | previousNotSpecified
  | keyExists
  deriving DecidableEq, Repr

/-- A stored value: an arbitrary byte sequence, modelled as a list of
naturals (the contract never interprets the bytes). -/
abbrev Value := List Nat

/-- KVPair represents the (Key, Value, LastIndex) tuple from kvstore.go.
LastIndex is the version token (an unsigned 64-bit logical clock in the
source; versions are assigned from a monotonically increasing counter and
never wrap in the model). -/
structure KVPair where
  key : String
  value : Value
  lastIndex : Nat
  deriving DecidableEq, Repr

/-- Modelled from the spec: the Reference Backend state (spec section 4.3).
It holds a mapping from key to (value, version), here an association list,
together with the single monotonically increasing version counter shared
across all keys. -/
structure RefStore where
  entries : List (String × Value × Nat)
  counter : Nat
  deriving DecidableEq, Repr

/-- The store holding no keys, with the version counter at its initial
value: no version has ever been issued. -/
def emptyStore : RefStore := ⟨[], 0⟩

/-- Look a key up in the association list, returning its (value, version)
pair when present. -/
def lookupEntries : List (String × Value × Nat) → String → Option (Value × Nat)
  | [], _ => none
  | e :: rest, k => if e.1 = k then some e.2 else lookupEntries rest k

/-- Remove every binding of a key from the association list. -/
def eraseEntries : List (String × Value × Nat) → String → List (String × Value × Nat)
  | [], _ => []
  | e :: rest, k => if e.1 = k then eraseEntries rest k else e :: eraseEntries rest k

/-- Bind a key to a (value, version) pair, replacing any previous
binding. -/
def setEntries (l : List (String × Value × Nat)) (k : String) (v : Value) (ver : Nat) :
    List (String × Value × Nat) :=
  (k, v, ver) :: eraseEntries l k

/-- Modelled from the spec: Exists (spec section 4.1) reports whether the
key currently has a value; purely a predicate. -/
def RefStore.existsKey (s : RefStore) (k : String) : Bool :=
  (lookupEntries s.entries k).isSome

/-- Modelled from the spec: Put (spec section 4.1), the unconditional
upsert; it creates the key if absent and overwrites otherwise, assigning
the next version from the shared counter.  The assigned version is
returned alongside the new state. -/
def RefStore.put (s : RefStore) (k : String) (v : Value) : RefStore × Nat :=
  (⟨setEntries s.entries k v (s.counter + 1), s.counter + 1⟩, s.counter + 1)

/-- Modelled from the spec: AtomicPut (spec section 4.1), the core
synchronization primitive.  previous = none means create only (KeyExists
if the key is present); previous = some p requires p.lastIndex to equal
the key's current version (KeyNotFound if the key is absent, KeyModified
on version mismatch); on success the new pair with its freshly assigned
version is returned. -/
def RefStore.atomicPut (s : RefStore) (k : String) (v : Value) (previous : Option KVPair) :
    Except KVError (KVPair × RefStore) :=
  match previous with
  | none =>
    match lookupEntries s.entries k with
    | some _ => .error .keyExists
    | none =>
      .ok (⟨k, v, s.counter + 1⟩, ⟨setEntries s.entries k v (s.counter + 1), s.counter + 1⟩)
  | some p =>
    match lookupEntries s.entries k with
    | none => .error .keyNotFound
    | some (_, ver) =>
      if p.lastIndex = ver then
        .ok (⟨k, v, s.counter + 1⟩, ⟨setEntries s.entries k v (s.counter + 1), s.counter + 1⟩)
      else .error .keyModified

/-- Modelled from the spec: AtomicDelete (spec section 4.1).  It requires
previous to be supplied (PreviousNotSpecified otherwise), requires the key
to be present (KeyNotFound otherwise), and requires previous.lastIndex to
match the current version (KeyModified on mismatch). -/
def RefStore.atomicDelete (s : RefStore) (k : String) (previous : Option KVPair) :
    Except KVError RefStore :=
  match previous with
  | none => .error .previousNotSpecified
  | some p =>
    match lookupEntries s.entries k with
    | none => .error .keyNotFound
    | some (_, ver) =>
      if p.lastIndex = ver then .ok ⟨eraseEntries s.entries k, s.counter⟩
      else .error .keyModified

/-- Modelled from the spec: Delete (spec section 4.1), the unconditional
removal; KeyNotFound if the key is absent, otherwise the key is removed
with no version check. -/
def RefStore.delete (s : RefStore) (k : String) : Except KVError RefStore :=
  match lookupEntries s.entries k with
  | none => .error .keyNotFound
  | some _ => .ok ⟨eraseEntries s.entries k, s.counter⟩

/-- Whether the key k begins with the string pre, compared character by
character. -/
def beginsWith (pre k : String) : Bool :=
  pre.data.isPrefixOf k.data

/-- Modelled from the spec: List (spec sections 4.1 and 4.3), implemented
by scanning all keys for the prefix relationship; when no stored key
begins with the queried prefix it fails with KeyNotFound instead of
returning an empty success. -/
def RefStore.list (s : RefStore) (pre : String) : Except KVError (List KVPair) :=
  let matching := s.entries.filter fun e => beginsWith pre e.1
  if matching = [] then .error .keyNotFound
  else .ok (matching.map fun e => ⟨e.1, e.2.1, e.2.2⟩)

/-- Well-formedness of a reference-backend state: every stored version is
positive and no stored version exceeds the shared counter (versions are
only ever issued from the counter). -/
def RefStore.Wf (s : RefStore) : Prop :=
  ∀ e ∈ s.entries, 0 < e.2.2 ∧ e.2.2 ≤ s.counter

instance (s : RefStore) : Decidable s.Wf :=
  inferInstanceAs (Decidable (∀ e ∈ s.entries, 0 < e.2.2 ∧ e.2.2 ≤ s.counter))

/-- One mutating operation of the Store contract, used to talk about
whole-lifetime traces of a store. -/
inductive Op where
  | put (k : String) (v : Value)
  | atomicPut (k : String) (v : Value) (previous : Option KVPair)
  | atomicDelete (k : String) (previous : Option KVPair)
  | delete (k : String)

/-- Run one operation: the resulting state, together with the (key,
version) token the operation issued, when it succeeded and issued one.  A
failed operation leaves the state unchanged. -/
def runOp (s : RefStore) : Op → RefStore × Option (String × Nat)
  | .put k v => ((s.put k v).1, some (k, (s.put k v).2))
  | .atomicPut k v previous =>
    match s.atomicPut k v previous with
    | .ok (p, s') => (s', some (k, p.lastIndex))
    | .error _ => (s, none)
  | .atomicDelete k previous =>
    match s.atomicDelete k previous with
    | .ok s' => (s', none)
    | .error _ => (s, none)
  | .delete k =>
    match s.delete k with
    | .ok s' => (s', none)
    | .error _ => (s, none)

/-- Run a sequence of operations, collecting every issued (key, version)
token in order. -/
def runOps (s : RefStore) : List Op → RefStore × List (String × Nat)
  | [] => (s, [])
  | op :: rest =>
    ((runOps (runOp s op).1 rest).1,
      (runOp s op).2.toList ++ (runOps (runOp s op).1 rest).2)

/-- The versions issued for one key over a whole run starting from the
empty store, in the order they were issued. -/
def issuedFor (ops : List Op) (k : String) : List Nat :=
  (((runOps emptyStore ops).2).filter fun t => t.1 = k).map (·.2)

/-- Run a sequence of AtomicPut calls on the same key, all carrying the
same previous pair, collecting each call's result in order (the
linearization of a race of identical compare-and-swap attempts). -/
def runRace (s : RefStore) (k : String) (p : KVPair) : List Value → List (Except KVError KVPair) × RefStore
  | [] => ([], s)
  | v :: rest =>
    match s.atomicPut k v (some p) with
    | .ok (pair, s') => ((runRace s' k p rest).1.cons (.ok pair), (runRace s' k p rest).2)
    | .error e => ((runRace s k p rest).1.cons (.error e), (runRace s k p rest).2)

/-- Modelled from the spec: the Backend Registry's New operation (spec
section 4.2).  The registry maps identifiers to constructors; New fails
with the distinguished backend-not-supported error when no constructor is
registered, and otherwise delegates, returning the constructor's result
unchanged.  The error type is a parameter, as in the source every error
shares one type; ns is the distinguished BackendNotSupported value. -/
def registryNew {σ ε : Type} (ns : ε) (reg : String → Option (List String → Except ε σ))
    (id : String) (addrs : List String) : Except ε σ :=
  match reg id with
  | none => .error ns
  | some ctor => ctor addrs

/-- Modelled from the spec: Register (spec section 4.2) associates an
identifier with a constructor; re-registering overwrites (last writer
wins). -/
def registryRegister {σ ε : Type} (reg : String → Option (List String → Except ε σ))
    (id : String) (ctor : List String → Except ε σ) :
    String → Option (List String → Except ε σ) :=
  fun id' => if id' = id then some ctor else reg id'

/-- Go types occurring in the Store interface's method signatures, from
kvstore.go. -/
inductive GoType where
  | stringT
  | byteSlice
  | boolT
  | errorT
  | ptrKVPair
  | slicePtrKVPair
  deriving DecidableEq, Repr

/-- One method of a Go interface: its name, parameter types and result
types. -/
structure GoMethod where
  name : String
  params : List GoType
  results : List GoType
  deriving DecidableEq, Repr

/-- The method set of the Store interface, transcribed from kvstore.go in
declaration order. -/
def storeMethods : List GoMethod :=
  [⟨"Put", [.stringT, .byteSlice], [.errorT]⟩,
   ⟨"Exists", [.stringT], [.boolT, .errorT]⟩,
   ⟨"List", [.stringT], [.slicePtrKVPair, .errorT]⟩,
   ⟨"AtomicPut", [.stringT, .byteSlice, .ptrKVPair], [.ptrKVPair, .errorT]⟩,
   ⟨"AtomicDelete", [.stringT, .ptrKVPair], [.errorT]⟩,
   ⟨"Delete", [.stringT], [.errorT]⟩,
   ⟨"Close", [], []⟩]

/-- A result type through which a caller can read stored data: a KVPair
or a slice of KVPairs. -/
def readsPairs (t : GoType) : Bool :=
  t = .ptrKVPair || t = .slicePtrKVPair

theorem lookup_setEntries_self (l : List (String × Value × Nat)) (k : String) (v : Value)
    (ver : Nat) : lookupEntries (setEntries l k v ver) k = some (v, ver) := by
  simp [setEntries, lookupEntries]

theorem lookup_eraseEntries_self (l : List (String × Value × Nat)) (k : String) :
    lookupEntries (eraseEntries l k) k = none := by
  induction l with
  | nil => rfl
  | cons e rest ih =>
    by_cases h : e.1 = k
    · simpa [eraseEntries, h] using ih
    · simpa [eraseEntries, lookupEntries, h] using ih

theorem lookupEntries_mem (l : List (String × Value × Nat)) (k : String) (x : Value × Nat)
    (h : lookupEntries l k = some x) : (k, x) ∈ l := by
  induction l with
  | nil => simp [lookupEntries] at h
  | cons e rest ih =>
    by_cases hk : e.1 = k
    · simp only [lookupEntries, hk, if_pos] at h
      subst hk
      obtain rfl : e.2 = x := by injection h
      simp
    · simp only [lookupEntries, hk, if_neg, not_false_iff] at h
      exact List.mem_cons_of_mem _ (ih h)

theorem atomicPut_ok (s : RefStore) (k : String) (v : Value) (previous : Option KVPair)
    (p : KVPair) (s' : RefStore) (h : s.atomicPut k v previous = .ok (p, s')) :
    p = ⟨k, v, s.counter + 1⟩ ∧
      s' = ⟨setEntries s.entries k v (s.counter + 1), s.counter + 1⟩ := by
  unfold RefStore.atomicPut at h
  rcases previous with _ | p0 <;> rcases hl : lookupEntries s.entries k with _ | x <;>
    simp only [hl] at h
  · simp only [Except.ok.injEq, Prod.mk.injEq] at h
    exact ⟨h.1.symm, h.2.symm⟩
  · exact Except.noConfusion h
  · exact Except.noConfusion h
  · split at h
    · simp only [Except.ok.injEq, Prod.mk.injEq] at h
      exact ⟨h.1.symm, h.2.symm⟩
    · exact Except.noConfusion h

theorem atomicDelete_ok (s : RefStore) (k : String) (previous : Option KVPair)
    (s' : RefStore) (h : s.atomicDelete k previous = .ok s') :
    s' = ⟨eraseEntries s.entries k, s.counter⟩ := by
  unfold RefStore.atomicDelete at h
  rcases previous with _ | p0
  · exact Except.noConfusion h
  · rcases hl : lookupEntries s.entries k with _ | x <;> simp only [hl] at h
    · exact Except.noConfusion h
    · split at h
      · simp only [Except.ok.injEq] at h
        exact h.symm
      · exact Except.noConfusion h

theorem delete_ok (s : RefStore) (k : String) (s' : RefStore)
    (h : s.delete k = .ok s') : s' = ⟨eraseEntries s.entries k, s.counter⟩ := by
  unfold RefStore.delete at h
  rcases hl : lookupEntries s.entries k with _ | x <;> simp only [hl] at h
  · exact Except.noConfusion h
  · simp only [Except.ok.injEq] at h
    exact h.symm

theorem runOp_counter_le (s : RefStore) (op : Op) : s.counter ≤ (runOp s op).1.counter := by
  cases op with
  | put k v => simp [runOp, RefStore.put]
  | atomicPut k v previous =>
    rcases h : s.atomicPut k v previous with e | ⟨p, s'⟩
    · simp [runOp, h]
    · obtain ⟨-, rfl⟩ := atomicPut_ok s k v previous p s' h
      simp [runOp, h]
  | atomicDelete k previous =>
    rcases h : s.atomicDelete k previous with e | s'
    · simp [runOp, h]
    · obtain rfl := atomicDelete_ok s k previous s' h
      simp [runOp, h]
  | delete k =>
    rcases h : s.delete k with e | s'
    · simp [runOp, h]
    · obtain rfl := delete_ok s k s' h
      simp [runOp, h]

theorem runOp_issued (s : RefStore) (op : Op) (t : String × Nat)
    (ht : (runOp s op).2 = some t) :
    t.2 = s.counter + 1 ∧ (runOp s op).1.counter = s.counter + 1 := by
  cases op with
  | put k v =>
    simp only [runOp, RefStore.put, Option.some.injEq] at ht
    subst ht
    simp [runOp, RefStore.put]
  | atomicPut k v previous =>
    rcases h : s.atomicPut k v previous with e | ⟨p, s'⟩
    · simp [runOp, h] at ht
    · obtain ⟨rfl, rfl⟩ := atomicPut_ok s k v previous p s' h
      simp only [runOp, h, Option.some.injEq] at ht
      subst ht
      simp [runOp, h]
  | atomicDelete k previous =>
    rcases h : s.atomicDelete k previous with e | s' <;> simp [runOp, h] at ht
  | delete k =>
    rcases h : s.delete k with e | s' <;> simp [runOp, h] at ht

theorem runOps_spec (ops : List Op) (s : RefStore) :
    s.counter ≤ (runOps s ops).1.counter ∧
    (∀ t ∈ (runOps s ops).2, s.counter < t.2 ∧ t.2 ≤ (runOps s ops).1.counter) ∧
    List.Pairwise (fun a b : String × Nat => a.2 < b.2) (runOps s ops).2 := by
  induction ops generalizing s with
  | nil => simp [runOps]
  | cons op rest ih =>
    obtain ⟨ih1, ih2, ih3⟩ := ih (runOp s op).1
    have hle := runOp_counter_le s op
    refine ⟨?_, ?_, ?_⟩
    · simp only [runOps]
      omega
    · intro t ht
      simp only [runOps, List.mem_append] at ht
      rcases ht with ht | ht
      · rcases hsome : (runOp s op).2 with _ | t0
        · simp [hsome] at ht
        · simp only [hsome, Option.toList_some, List.mem_singleton] at ht
          subst ht
          obtain ⟨h1, h2⟩ := runOp_issued s op t hsome
          simp only [runOps]
          exact ⟨by omega, by omega⟩
      · obtain ⟨h1, h2⟩ := ih2 t ht
        simp only [runOps]
        exact ⟨by omega, by omega⟩
    · simp only [runOps]
      rcases hsome : (runOp s op).2 with _ | t0
      · simpa using ih3
      · simp only [Option.toList_some, List.singleton_append]
        refine List.Pairwise.cons ?_ ih3
        intro b hb
        obtain ⟨h1, h2⟩ := runOp_issued s op t0 hsome
        obtain ⟨hb1, hb2⟩ := ih2 b hb
        omega

/-- Claim C3: over the whole lifetime of the store, the versions issued by
successful mutating operations on any one key form a strictly increasing
sequence; in particular a recreate after a delete is assigned a version
strictly greater than every version previously issued for that key. -/
theorem versions_issued_strictly_increasing (ops : List Op) (k : String) :
    List.Pairwise (· < ·) (issuedFor ops k) := by
  have h := (runOps_spec ops emptyStore).2.2
  have hsub : List.Sublist ((runOps emptyStore ops).2.filter fun t => t.1 = k)
      (runOps emptyStore ops).2 := List.filter_sublist _
  have h2 := List.Pairwise.sublist hsub h
  unfold issuedFor
  exact List.pairwise_map.mpr h2

/-- Claim C1: when key k currently holds a value with version V, an
AtomicPut carrying a previous pair whose lastIndex differs from V fails
with KeyModified, and the failed call leaves the stored value and version
of k (indeed the whole store) unchanged. -/
theorem atomicPut_version_mismatch_fails (s : RefStore) (k : String) (v0 : Value) (V : Nat)
    (hlk : lookupEntries s.entries k = some (v0, V))
    (v2 : Value) (p2 : KVPair) (hne : p2.lastIndex ≠ V) :
    s.atomicPut k v2 (some p2) = .error .keyModified ∧
    runOp s (.atomicPut k v2 (some p2)) = (s, none) := by
  have h : s.atomicPut k v2 (some p2) = .error .keyModified := by
    unfold RefStore.atomicPut
    simp [hlk, hne]
  exact ⟨h, by simp [runOp, h]⟩

theorem atomicPut_version_mismatch_fails_witness :
    RefStore.atomicPut ⟨[("a", [0], 3)], 3⟩ "a" [7] (some ⟨"a", [0], 1⟩) =
      .error .keyModified ∧
    runOp ⟨[("a", [0], 3)], 3⟩ (.atomicPut "a" [7] (some ⟨"a", [0], 1⟩)) =
      (⟨[("a", [0], 3)], 3⟩, none) :=
  atomicPut_version_mismatch_fails ⟨[("a", [0], 3)], 3⟩ "a" [0] 3 (by decide) [7]
    ⟨"a", [0], 1⟩ (by decide)

/-- Claim C2: for an absent key, Exists returns false and a create-only
AtomicPut (previous = none) succeeds, returning a pair whose version is
strictly positive; for a present key a create-only AtomicPut fails with
KeyExists. -/
theorem atomicPut_create_semantics (s : RefStore) (k : String) (v : Value) :
    (lookupEntries s.entries k = none →
      s.existsKey k = false ∧
      ∃ p s', s.atomicPut k v none = .ok (p, s') ∧ 0 < p.lastIndex) ∧
    (∀ v0 ver, lookupEntries s.entries k = some (v0, ver) →
      s.atomicPut k v none = .error .keyExists) := by
  constructor
  · intro hnone
    refine ⟨by simp [RefStore.existsKey, hnone], ⟨k, v, s.counter + 1⟩,
      ⟨setEntries s.entries k v (s.counter + 1), s.counter + 1⟩, ?_, Nat.succ_pos _⟩
    unfold RefStore.atomicPut
    simp [hnone]
  · intro v0 ver hsome
    unfold RefStore.atomicPut
    simp [hsome]

theorem atomicPut_create_semantics_witness :
    (RefStore.existsKey emptyStore "a" = false ∧
      ∃ p s', RefStore.atomicPut emptyStore "a" [1] none = .ok (p, s') ∧ 0 < p.lastIndex) ∧
    RefStore.atomicPut ⟨[("a", [0], 1)], 1⟩ "a" [9] none = .error .keyExists :=
  ⟨(atomicPut_create_semantics emptyStore "a" [1]).1 rfl,
   (atomicPut_create_semantics ⟨[("a", [0], 1)], 1⟩ "a" [9]).2 [0] 1 (by decide)⟩

/-- Claim C4: AtomicDelete with no previous pair always fails with
PreviousNotSpecified and leaves the store unchanged, whether or not the
key exists. -/
theorem atomicDelete_requires_previous (s : RefStore) (k : String) :
    s.atomicDelete k none = .error .previousNotSpecified ∧
    runOp s (.atomicDelete k none) = (s, none) :=
  ⟨rfl, rfl⟩

/-- Claim C5: an AtomicPut carrying a non-nil previous pair for a key that
is not currently stored fails with KeyNotFound: a previous pointing at a
since-deleted key is never silently treated as a create. -/
theorem atomicPut_stale_previous_fails (s : RefStore) (k : String)
    (hnone : lookupEntries s.entries k = none) (v : Value) (p : KVPair) :
    s.atomicPut k v (some p) = .error .keyNotFound := by
  unfold RefStore.atomicPut
  simp [hnone]

theorem atomicPut_stale_previous_fails_witness :
    RefStore.atomicPut emptyStore "a" [1] (some ⟨"a", [0], 1⟩) = .error .keyNotFound :=
  atomicPut_stale_previous_fails emptyStore "a" rfl [1] ⟨"a", [0], 1⟩

/-- Claim C7: Delete fails with KeyNotFound exactly when the key is
absent; when the key is present it succeeds regardless of the current
version (no version check), and afterwards Exists reports false. -/
theorem delete_semantics (s : RefStore) (k : String) :
    (lookupEntries s.entries k = none → s.delete k = .error .keyNotFound) ∧
    (∀ v0 ver, lookupEntries s.entries k = some (v0, ver) →
      ∃ s', s.delete k = .ok s' ∧ s'.existsKey k = false) := by
  constructor
  · intro hnone
    unfold RefStore.delete
    simp [hnone]
  · intro v0 ver hsome
    refine ⟨⟨eraseEntries s.entries k, s.counter⟩, ?_, ?_⟩
    · unfold RefStore.delete
      simp [hsome]
    · simp [RefStore.existsKey, lookup_eraseEntries_self]

theorem delete_semantics_witness :
    RefStore.delete emptyStore "a" = .error .keyNotFound ∧
    ∃ s', RefStore.delete ⟨[("a", [0], 5)], 7⟩ "a" = .ok s' ∧ s'.existsKey "a" = false :=
  ⟨(delete_semantics emptyStore "a").1 rfl,
   (delete_semantics ⟨[("a", [0], 5)], 7⟩ "a").2 [0] 5 (by decide)⟩

/-- Claim C6: List returns exactly the currently-stored pairs whose key
begins with the queried string (a membership characterization, hence set
equality irrespective of order), and fails with KeyNotFound when no
stored key begins with it, rather than returning an empty success. -/
theorem list_semantics (s : RefStore) (pre : String) :
    ((∃ e ∈ s.entries, beginsWith pre e.1 = true) →
      ∃ l, s.list pre = .ok l ∧
        ∀ p : KVPair, p ∈ l ↔
          ((p.key, p.value, p.lastIndex) ∈ s.entries ∧ beginsWith pre p.key = true)) ∧
    ((∀ e ∈ s.entries, ¬ beginsWith pre e.1 = true) →
      s.list pre = .error .keyNotFound) := by
  constructor
  · rintro ⟨e, he, hpe⟩
    have hne : (s.entries.filter fun e => beginsWith pre e.1) ≠ [] := by
      intro hnil
      rw [List.filter_eq_nil_iff] at hnil
      exact hnil e he (by simpa using hpe)
    refine ⟨(s.entries.filter fun e => beginsWith pre e.1).map fun e => ⟨e.1, e.2.1, e.2.2⟩,
      ?_, ?_⟩
    · unfold RefStore.list
      simp only []
      rw [if_neg hne]
    · intro p
      constructor
      · intro hp
        rw [List.mem_map] at hp
        obtain ⟨e', he', rfl⟩ := hp
        rw [List.mem_filter] at he'
        obtain ⟨hmem, hf⟩ := he'
        obtain ⟨k', v', ver'⟩ := e'
        exact ⟨hmem, hf⟩
      · rintro ⟨hmem, hpre⟩
        rw [List.mem_map]
        refine ⟨(p.key, p.value, p.lastIndex), ?_, ?_⟩
        · rw [List.mem_filter]
          exact ⟨hmem, hpre⟩
        · cases p
          rfl
  · intro hall
    unfold RefStore.list
    simp only []
    rw [if_pos (List.filter_eq_nil_iff.mpr (by simpa using hall))]

theorem list_semantics_witness :
    (∃ l, RefStore.list ⟨[("a/x", [1], 1), ("a/y", [2], 2), ("b/z", [3], 3)], 3⟩ "a/" =
        .ok l ∧
      ∀ p : KVPair, p ∈ l ↔
        ((p.key, p.value, p.lastIndex) ∈
            [("a/x", ([1] : Value), 1), ("a/y", [2], 2), ("b/z", [3], 3)] ∧
          beginsWith "a/" p.key = true)) ∧
    RefStore.list emptyStore "a/" = .error .keyNotFound :=
  ⟨(list_semantics ⟨[("a/x", [1], 1), ("a/y", [2], 2), ("b/z", [3], 3)], 3⟩ "a/").1
      ⟨("a/x", [1], 1), by decide, by decide⟩,
   (list_semantics emptyStore "a/").2 (by simp [emptyStore])⟩

theorem runRace_all_modified (s : RefStore) (k : String) (p : KVPair) (rest : List Value)
    (v' : Value) (w : Nat) (hlk : lookupEntries s.entries k = some (v', w))
    (hne : p.lastIndex ≠ w) :
    runRace s k p rest = (List.replicate rest.length (.error .keyModified), s) := by
  induction rest with
  | nil => rfl
  | cons v vs ih =>
    have hcall : s.atomicPut k v (some p) = .error .keyModified := by
      unfold RefStore.atomicPut
      simp [hlk, hne]
    simp [runRace, hcall, ih, List.replicate_succ]

/-- Claim C8: the linearization of N racing AtomicPut calls on one key,
all carrying the same previous pair whose lastIndex matches the key's
current version, has exactly one winner: whichever call is serialized
first succeeds, and every other call fails with KeyModified. -/
theorem race_one_winner (s : RefStore) (hwf : s.Wf) (k : String) (v0 : Value) (ver : Nat)
    (hlk : lookupEntries s.entries k = some (v0, ver)) (p : KVPair)
    (hp : p.lastIndex = ver) (v1 : Value) (rest : List Value) :
    (runRace s k p (v1 :: rest)).1 =
      .ok ⟨k, v1, s.counter + 1⟩ :: List.replicate rest.length (.error .keyModified) := by
  have hver : ver ≤ s.counter := (hwf _ (lookupEntries_mem _ _ _ hlk)).2
  have hcall : s.atomicPut k v1 (some p) =
      .ok (⟨k, v1, s.counter + 1⟩,
        ⟨setEntries s.entries k v1 (s.counter + 1), s.counter + 1⟩) := by
    unfold RefStore.atomicPut
    simp [hlk, hp]
  have hrest := runRace_all_modified
    ⟨setEntries s.entries k v1 (s.counter + 1), s.counter + 1⟩ k p rest v1 (s.counter + 1)
    (lookup_setEntries_self s.entries k v1 (s.counter + 1)) (by omega)
  simp [runRace, hcall, hrest]

theorem race_one_winner_witness :
    (runRace ⟨[("a", [0], 1)], 1⟩ "a" ⟨"a", [0], 1⟩ [[1], [2], [3]]).1 =
      .ok ⟨"a", [1], 2⟩ :: List.replicate 2 (.error .keyModified) :=
  race_one_winner ⟨[("a", [0], 1)], 1⟩ (by decide) "a" [0] 1 (by decide) ⟨"a", [0], 1⟩ rfl
    [1] [[2], [3]]

/-- Claim C9: the Registry's New fails with the distinguished
backend-not-supported error when the identifier has no registered
constructor; otherwise it delegates to the registered constructor and
returns the constructor's result, including the constructor's own
errors, unchanged. -/
theorem registry_new_semantics {σ ε : Type} (ns : ε)
    (reg : String → Option (List String → Except ε σ)) (id : String)
    (addrs : List String) :
    (reg id = none → registryNew ns reg id addrs = .error ns) ∧
    (∀ ctor, reg id = some ctor → registryNew ns reg id addrs = ctor addrs) := by
  constructor
  · intro h
    unfold registryNew
    rw [h]
  · intro ctor h
    unfold registryNew
    rw [h]

theorem registry_new_semantics_witness :
    registryNew KVError.backendNotSupported
      (fun _ => (none : Option (List String → Except KVError Nat))) "etcd" [] =
      .error KVError.backendNotSupported ∧
    registryNew KVError.backendNotSupported
      (registryRegister (fun _ => none) "boltdb" (fun _ => .ok 5)) "boltdb" [] = .ok 5 :=
  ⟨(registry_new_semantics KVError.backendNotSupported
      (fun _ => (none : Option (List String → Except KVError Nat))) "etcd" []).1 rfl,
   (registry_new_semantics KVError.backendNotSupported
      (registryRegister (fun _ => none) "boltdb" (fun _ => .ok 5)) "boltdb" []).2
      (fun _ => .ok 5) (by simp [registryRegister])⟩

/-- Claim C10: the Store interface exposes exactly the seven methods Put,
Exists, List, AtomicPut, AtomicDelete, Delete and Close — in particular
no Get — the only methods whose result types carry KVPair data (through
which a caller can read a stored value or version) are List and
AtomicPut, and Close returns no results at all, so it can never report an
error. -/
theorem store_interface_surface :
    storeMethods.length = 7 ∧
    storeMethods.map GoMethod.name =
      ["Put", "Exists", "List", "AtomicPut", "AtomicDelete", "Delete", "Close"] ∧
    "Get" ∉ storeMethods.map GoMethod.name ∧
    (∀ m ∈ storeMethods, (∃ t ∈ m.results, readsPairs t = true) ↔
      (m.name = "List" ∨ m.name = "AtomicPut")) ∧
    (∀ m ∈ storeMethods, m.name = "Close" → m.results = []) := by
  decide

end KVStore
